import Mathlib

/-!
Shallow embedding of the sdkit release-artifact synchronization scripts.

The embedded code is:
* `scripts/upload/__main__.py` — the remote reconciler (`compare_and_upload`
  and the `GitHubReleaseUploader` mutation primitives), and
* `scripts/build/common.py`   — artifact collection, archive caching and
  manifest construction (`collect_and_move_artifacts`, `compress`).

Modelling conventions:
* JSON manifests are modelled at the schema the repository produces and
  consumes (`{"files": {basename: {"sha256": ..., "uri": ...}}, ...extra}`),
  with Python dicts as association lists in insertion order and Python dict
  equality (`==`, order-insensitive) as `dictEqB`.  Every representable
  manifest carries the `"files"` key, hence is truthy in Python, so the
  source's `if remote_manifest and ...` truthiness test reduces to the
  download having succeeded.
* Network effects are reified as action traces (`Action`), and the
  dry-run-gated requests actually issued by `delete_asset` / `upload_asset`
  as `NetCall` lists, mirroring the early-return-on-`dry_run` structure of
  the Python methods.
* The Python local variable `remote_manifest` is assigned only inside
  `if manifest_filename in existing_assets and not force:`; reading it
  otherwise raises `UnboundLocalError`.  `RMState` makes that explicit:
  `none` = never assigned (reading it aborts the run), `some none` =
  `download_manifest` returned `None`, `some (some m)` = parsed manifest.
* SHA-256 itself is treated as an abstract hash function parameter
  (`hash : String → String`); no claim depends on its internals.
-/

namespace Sdkit

/-- One value of the manifest's `files` map: `{"sha256": ..., "uri": ...}`
(`uri` is the published archive name). -/
structure FileEntry where
  sha256 : String
  uri : String
deriving DecidableEq, Repr

/-- A manifest document: the `files` map plus the open extra metadata merged
in by `get_manifest_data_func` (modelled as string-valued, per the schema the
platform modules supply).  Association lists record Python dict insertion
order. -/
structure Manifest where
  files : List (String × FileEntry)
  extra : List (String × String)
deriving DecidableEq, Repr

/-- Python dict lookup `d.get(k)` / `d[k]` on an association list: first
entry with the given key. -/
def dlookup {α : Type} (l : List (String × α)) (k : String) : Option α :=
  (l.find? (fun p => p.1 == k)).map Prod.snd

/-- Python dict assignment `d[k] = v`: replaces the value in place when the
key is present (keeping its position), appends otherwise. -/
def dinsert {α : Type} (l : List (String × α)) (k : String) (v : α) :
    List (String × α) :=
  match l with
  | [] => [(k, v)]
  | (k', v') :: rest =>
    if k' == k then (k, v) :: rest else (k', v') :: dinsert rest k v

/-- Python `==` on two dicts (order-insensitive): the same keys map to equal
values on both sides.  For lists with unique keys — which Python dicts
guarantee — this is exactly Python dict equality. -/
def dictEqB {α : Type} [DecidableEq α] (a b : List (String × α)) : Bool :=
  a.all (fun p => decide (dlookup b p.1 = some p.2)) &&
    b.all (fun p => decide (dlookup a p.1 = some p.2))

/-- Python `==` between two manifest documents (deep, order-insensitive
equality of the JSON values), used at
`if remote_manifest and remote_manifest == manifest:`. -/
def manifestEq (a b : Manifest) : Bool :=
  dictEqB a.files b.files && dictEqB a.extra b.extra

/-- One remote release asset (`{id, name, browser_download_url}`), together
with what `download_manifest` yields for it: `none` models the
download-or-parse failure path that returns `None`. -/
structure Asset where
  id : Nat
  name : String
  download : Option Manifest
deriving DecidableEq, Repr

/-- `existing_assets` is a dict keyed by asset name; membership and indexing
are modelled by first-match lookup. -/
def findAsset (assets : List Asset) (name : String) : Option Asset :=
  assets.find? (fun a => a.name == name)

/-- A mutation the reconciler decides to perform: `delete_asset` /
`upload_asset` with the asset name (and local path for uploads). -/
inductive Action where
  | deleteA (id : Nat) (name : String)
  | uploadA (path : String) (name : String)
deriving DecidableEq, Repr

/-- The asset name an action addresses. -/
def Action.name : Action → String
  | .deleteA _ n => n
  | .uploadA _ n => n

/-- Whether an action is a deletion. -/
def Action.isDelete : Action → Bool
  | .deleteA _ _ => true
  | .uploadA _ _ => false

/-- Running totals and trace produced by a fragment of `compare_and_upload`:
the `uploaded` / `skipped` counters and the mutations issued, in order. -/
structure StepResult where
  uploaded : Nat
  skipped : Nat
  actions : List Action
deriving DecidableEq, Repr

/-- State of the Python local `remote_manifest` after the manifest check:
`none` = never assigned (reading it raises `UnboundLocalError`), `some none`
= `download_manifest` returned `None`, `some (some m)` = parsed manifest. -/
abbrev RMState := Option (Option Manifest)

/-- Lines 176–196 of `upload/__main__.py`: the manifest-file check at the top
of `compare_and_upload`.  Returns the counters/trace contribution and the
resulting `remote_manifest` variable state. -/
def processManifest (force : Bool) (existing_assets : List Asset)
    (manifest : Manifest) (manifest_filename manifest_path : String) :
    StepResult × RMState :=
  match findAsset existing_assets manifest_filename, force with
  | some existing_asset, false =>
    -- remote_manifest = uploader.download_manifest(existing_asset)
    let remote_manifest := existing_asset.download
    -- if remote_manifest and remote_manifest == manifest:  (every
    -- representable manifest has the "files" key, hence is truthy)
    if (match remote_manifest with
        | some m => manifestEq m manifest
        | none => false) then
      (⟨0, 1, []⟩, some remote_manifest)
    else
      (⟨1, 0, [.deleteA existing_asset.id manifest_filename,
               .uploadA manifest_path manifest_filename]⟩,
       some remote_manifest)
  | _, _ =>
    (⟨1, 0, [.uploadA manifest_path manifest_filename]⟩, none)

/-- Lines 201–238 of `upload/__main__.py`: one iteration of the per-file
loop, for one `(filename, file_info)` item of the local manifest's `files`
map.  `localExists` models `(artifacts_dir / asset_name).exists()`.
Returns `none` when the Python code would raise `UnboundLocalError` on the
never-assigned `remote_manifest` variable. -/
def processFile (force : Bool) (existing_assets : List Asset) (rm : RMState)
    (localExists : String → Bool) (entry : String × FileEntry) :
    Option StepResult :=
  -- asset_name = file_info["uri"]; local_hash = file_info["sha256"]
  if !(localExists entry.2.uri) then
    -- warning: file not found; continue
    some ⟨0, 0, []⟩
  else
    match findAsset existing_assets entry.2.uri, force with
    | some existing_asset, false =>
      match rm with
      | none => none
      | some remote_manifest =>
        -- remote_hash: first remote files entry whose uri matches
        let remote_hash : Option String :=
          match remote_manifest with
          | some m =>
            (m.files.find? (fun p => p.2.uri == entry.2.uri)).map
              (fun p => p.2.sha256)
          | none => none
        -- if remote_hash and remote_hash == local_hash:  (Python string
        -- truthiness: non-None and non-empty)
        match remote_hash with
        | some h =>
          if h != "" && h == entry.2.sha256 then
            some ⟨0, 1, []⟩
          else
            some ⟨1, 0, [.deleteA existing_asset.id entry.2.uri,
                         .uploadA entry.2.uri entry.2.uri]⟩
        | none =>
          some ⟨1, 0, [.deleteA existing_asset.id entry.2.uri,
                       .uploadA entry.2.uri entry.2.uri]⟩
    | _, _ =>
      some ⟨1, 0, [.uploadA entry.2.uri entry.2.uri]⟩

/-- The whole per-file loop of `compare_and_upload`, folding
`processFile` over the local manifest's `files` items in order. -/
def processFiles (force : Bool) (existing_assets : List Asset) (rm : RMState)
    (localExists : String → Bool) :
    List (String × FileEntry) → Option StepResult
  | [] => some ⟨0, 0, []⟩
  | e :: rest =>
    match processFile force existing_assets rm localExists e with
    | none => none
    | some r =>
      match processFiles force existing_assets rm localExists rest with
      | none => none
      | some r' =>
        some ⟨r.uploaded + r'.uploaded, r.skipped + r'.skipped,
              r.actions ++ r'.actions⟩

/-- Lines 151–240 of `upload/__main__.py`: `compare_and_upload`.  Handles
the manifest file first, then every `files` entry, returning the counters
and the ordered mutation trace; `none` models a run aborted by the
`UnboundLocalError` on `remote_manifest`. -/
def compare_and_upload (manifest : Manifest)
    (manifest_filename manifest_path : String)
    (localExists : String → Bool) (existing_assets : List Asset)
    (force : Bool) : Option StepResult :=
  let mstep := processManifest force existing_assets manifest
    manifest_filename manifest_path
  match processFiles force existing_assets mstep.2 localExists
      manifest.files with
  | none => none
  | some fr =>
    some ⟨mstep.1.uploaded + fr.uploaded, mstep.1.skipped + fr.skipped,
          mstep.1.actions ++ fr.actions⟩

/-- An HTTP request that mutates the remote release. -/
inductive NetCall where
  | httpDelete (id : Nat)
  | httpPost (name : String)
deriving DecidableEq, Repr

/-- Lines 68–77 of `upload/__main__.py`: `GitHubReleaseUploader.delete_asset`
issues its DELETE request only when not in dry-run mode. -/
def delete_asset (dry_run : Bool) (asset_id : Nat) : List NetCall :=
  if dry_run then [] else [.httpDelete asset_id]

/-- Lines 79–98 of `upload/__main__.py`: `GitHubReleaseUploader.upload_asset`
issues its POST request only when not in dry-run mode. -/
def upload_asset (dry_run : Bool) (asset_name : String) : List NetCall :=
  if dry_run then [] else [.httpPost asset_name]

/-- The network-mutating requests actually issued when executing a trace of
reconciler actions through the dry-run-gated uploader methods. -/
def performActions (dry_run : Bool) : List Action → List NetCall
  | [] => []
  | .deleteA id _ :: rest =>
    delete_asset dry_run id ++ performActions dry_run rest
  | .uploadA _ name :: rest =>
    upload_asset dry_run name ++ performActions dry_run rest

/-- A full `compare_and_upload` run through an uploader constructed with the
given `dry_run` flag: the computed plan plus the mutating requests issued. -/
def run_compare_and_upload (dry_run : Bool) (manifest : Manifest)
    (manifest_filename manifest_path : String)
    (localExists : String → Bool) (existing_assets : List Asset)
    (force : Bool) : Option (StepResult × List NetCall) :=
  (compare_and_upload manifest manifest_filename manifest_path localExists
      existing_assets force).map
    (fun r => (r, performActions dry_run r.actions))

/-- One build output file, as `collect_and_move_artifacts` sees it: only its
basename (used for naming and manifest keying) and its byte content (used for
hashing and compression) are consumed. -/
structure Artifact where
  basename : String
  content : String
deriving DecidableEq, Repr

/-- The observable result of `compress` (`build/common.py` lines 241–244): a
single-entry tar+gzip at `compresslevel=9` storing the input under its
basename (`arcname=os.path.basename(input_file)`). -/
structure Archive where
  arcname : String
  content : String
  compresslevel : Nat
deriving DecidableEq, Repr

/-- `compress(input_file, output_file)`: deterministic single-entry archive
of the input at maximum compression, entry named by the input's basename. -/
def compress (input : Artifact) : Archive :=
  ⟨input.basename, input.content, 9⟩

/-- The published archive filename: `f"{target}-{basename}.tar.gz"`. -/
def tgzName (target : String) (f : Artifact) : String :=
  target ++ "-" ++ f.basename ++ ".tar.gz"

/-- Observable cache events of the artifact-collection loop: the
skip-compression message, `os.remove` of a stale archive, and a run of
`compress`. -/
inductive CollectEvent where
  | skipCompression (name : String)
  | removeStale (name : String)
  | compressed (name : String)
deriving DecidableEq, Repr

/-- State threaded through the collection loop: the archives present in
`release_artifacts` (keyed by archive filename), the `manifest["files"]` map
under construction, and the event log. -/
structure CollectState where
  disk : List (String × Archive)
  files : List (String × FileEntry)
  events : List CollectEvent
deriving DecidableEq, Repr

/-- Lines 142–162 of `build/common.py`: the body of `add_to_manifest` for one
file.  `hash` models `compute_sha256` (a pure function of the file's bytes);
`existingFiles` is `existing_manifest.get("files", {})`, read once before the
loop.  Skips compression exactly when the archive file exists on disk and the
digest recorded for the basename equals the fresh digest; otherwise removes
any stale archive and recompresses.  In both cases the manifest entry is
(re)assigned. -/
def addOne (hash : String → String) (existingFiles : List (String × FileEntry))
    (target : String) (st : CollectState) (f : Artifact) : CollectState :=
  let tar_gz_name := tgzName target f
  let sha256 := hash f.content
  -- curr_sha256 = existing_manifest.get("files", {}).get(basename, {}).get("sha256")
  let curr_sha256 : Option String :=
    (dlookup existingFiles f.basename).map FileEntry.sha256
  let st1 :=
    if (dlookup st.disk tar_gz_name).isSome &&
        decide (some sha256 = curr_sha256) then
      { st with events := st.events ++ [CollectEvent.skipCompression tar_gz_name] }
    else
      { st with
        disk := dinsert st.disk tar_gz_name (compress f),
        events := st.events ++
          (if (dlookup st.disk tar_gz_name).isSome then
            [CollectEvent.removeStale tar_gz_name] else []) ++
          [CollectEvent.compressed tar_gz_name] }
  { st1 with files := dinsert st1.files f.basename ⟨sha256, tar_gz_name⟩ }

/-- `add_to_manifest(files, target)`: folds `addOne` over a file list. -/
def add_to_manifest (hash : String → String)
    (existingFiles : List (String × FileEntry)) (target : String)
    (st : CollectState) (fs : List Artifact) : CollectState :=
  fs.foldl (addOne hash existingFiles target) st

/-- Lines 124–167 of `build/common.py`: `collect_and_move_artifacts`.  Starts
from a fresh `{"files": {}}` manifest and the archives already on disk, then
runs `add_to_manifest(release_files, target)` followed by
`add_to_manifest(additional_files, target_any)`. -/
def collect_and_move_artifacts (hash : String → String)
    (existingFiles : List (String × FileEntry))
    (initialDisk : List (String × Archive)) (target target_any : String)
    (release_files additional_files : List Artifact) : CollectState :=
  let st0 : CollectState := ⟨initialDisk, [], []⟩
  let st1 := add_to_manifest hash existingFiles target st0 release_files
  add_to_manifest hash existingFiles target_any st1 additional_files

/-- The archive filenames the collection pass produces (ensures on disk), in
processing order: the target-prefixed names of the build outputs followed by
the `"any"`-prefixed names of the additional files. -/
def producedNames (target target_any : String)
    (release_files additional_files : List Artifact) : List String :=
  release_files.map (tgzName target) ++
    additional_files.map (tgzName target_any)

/-- Rendering of spec §4.5 step 3 on a mutation trace: once the manifest
document has been uploaded, no action on any other asset name may follow
(every per-file upload/delete precedes the manifest upload). -/
def noPerFileAfterManifestUpload (mfn : String) : List Action → Bool
  | [] => true
  | a :: rest =>
    if a.name == mfn then rest.all (fun b => b.name == mfn)
    else noPerFileAfterManifestUpload mfn rest

/-- Example file entry used by the concrete witnesses. -/
def exEntry : FileEntry := ⟨"aaa", "t-app.tar.gz"⟩

/-- Example local manifest with one files entry. -/
def exMan : Manifest := ⟨[("app", exEntry)], []⟩

/-- Example remote assets: the previously published manifest (which
downloads and parses to `exMan`) and the published archive. -/
def exAssets : List Asset :=
  [⟨1, "t-manifest.json", some exMan⟩, ⟨2, "t-app.tar.gz", none⟩]

/-- A dry-run uploader issues no requests, whatever the trace. -/
theorem performActions_dry (l : List Action) : performActions true l = [] := by
  induction l with
  | nil => rfl
  | cons a rest ih =>
    cases a <;> simp [performActions, delete_asset, upload_asset, ih]

/-- Evaluation of the per-file loop body on the skip branch: asset present,
hash found at the first uri match of the remote manifest and equal to the
(nonempty) local hash. -/
theorem processFile_eval_skip (assets : List Asset) (m : Manifest)
    (le : String → Bool) (p : String × FileEntry) (ex : Asset)
    (q : String × FileEntry) (hle : le p.2.uri = true)
    (hfind : findAsset assets p.2.uri = some ex)
    (hq : m.files.find? (fun r => r.2.uri == p.2.uri) = some q)
    (hsha : q.2.sha256 = p.2.sha256) (hne : p.2.sha256 ≠ "") :
    processFile false assets (some (some m)) le p = some ⟨0, 1, []⟩ := by
  simp [processFile, hle, hfind, hq, hsha, hne]

/-- Evaluation of the per-file loop body when no remote asset bears the
published name: plain upload, no delete. -/
theorem processFile_eval_new (assets : List Asset) (rm : RMState)
    (le : String → Bool) (p : String × FileEntry)
    (hle : le p.2.uri = true)
    (hfind : findAsset assets p.2.uri = none) :
    processFile false assets rm le p =
      some ⟨1, 0, [.uploadA p.2.uri p.2.uri]⟩ := by
  simp [processFile, hle, hfind]

/-- C1: per-file reconciliation decision with `force` false, for an entry
whose local archive exists, given the `remote_manifest` value established by
the manifest check: no remote asset with the published name means
upload-new; a remote asset plus a first uri-matching remote-manifest entry
with the same (nonempty) hash means skip; a differing hash at that entry, or
a failed remote-manifest download, means replace (delete then upload) — the
degraded case is never a skip. -/
theorem c1_per_file_decision (assets : List Asset) (rmv : Option Manifest)
    (le : String → Bool) (p : String × FileEntry)
    (hle : le p.2.uri = true) (hne : p.2.sha256 ≠ "") :
    (findAsset assets p.2.uri = none →
      processFile false assets (some rmv) le p =
        some ⟨1, 0, [.uploadA p.2.uri p.2.uri]⟩)
    ∧ (∀ ex m q, findAsset assets p.2.uri = some ex → rmv = some m →
        m.files.find? (fun r => r.2.uri == p.2.uri) = some q →
        q.2.sha256 = p.2.sha256 →
        processFile false assets (some rmv) le p = some ⟨0, 1, []⟩)
    ∧ (∀ ex m q, findAsset assets p.2.uri = some ex → rmv = some m →
        m.files.find? (fun r => r.2.uri == p.2.uri) = some q →
        q.2.sha256 ≠ p.2.sha256 →
        processFile false assets (some rmv) le p =
          some ⟨1, 0, [.deleteA ex.id p.2.uri, .uploadA p.2.uri p.2.uri]⟩)
    ∧ (∀ ex, findAsset assets p.2.uri = some ex → rmv = none →
        processFile false assets (some rmv) le p =
          some ⟨1, 0, [.deleteA ex.id p.2.uri, .uploadA p.2.uri p.2.uri]⟩) := by
  refine ⟨fun hfind => processFile_eval_new assets (some rmv) le p hle hfind,
    fun ex m q hfind hm hq hsha => ?_, fun ex m q hfind hm hq hsha => ?_,
    fun ex hfind hm => ?_⟩
  · subst hm
    exact processFile_eval_skip assets m le p ex q hle hfind hq hsha hne
  · subst hm
    simp [processFile, hle, hfind, hq, hsha]
  · subst hm
    simp [processFile, hle, hfind]

/-- Witness for C1: concrete skip decision (asset present, matching hash in
the downloaded remote manifest). -/
theorem c1_witness :
    ((fun _ : String => true) exEntry.uri = true ∧ exEntry.sha256 ≠ "") ∧
      processFile false exAssets (some (some exMan)) (fun _ => true)
        ("app", exEntry) = some ⟨0, 1, []⟩ :=
  ⟨⟨rfl, by decide⟩,
    (c1_per_file_decision exAssets (some exMan) (fun _ => true) ("app", exEntry)
        rfl (by decide)).2.1 ⟨2, "t-app.tar.gz", none⟩ exMan ("app", exEntry)
      (by decide) rfl (by decide) rfl⟩

/-- C2: manifest-identity check with `force` false: when no remote asset has
the local manifest's filename, the manifest is uploaded fresh (no delete);
when such an asset exists, it is downloaded and parsed, a deep-equal result
means skip, and anything else (differing document or failed download/parse)
means replace: delete the remote copy, then upload the local one. -/
theorem c2_manifest_identity (assets : List Asset) (manifest : Manifest)
    (mfn mp : String) :
    (findAsset assets mfn = none →
      processManifest false assets manifest mfn mp =
        (⟨1, 0, [.uploadA mp mfn]⟩, none))
    ∧ (∀ ex m, findAsset assets mfn = some ex → ex.download = some m →
        manifestEq m manifest = true →
        processManifest false assets manifest mfn mp =
          (⟨0, 1, []⟩, some (some m)))
    ∧ (∀ ex, findAsset assets mfn = some ex →
        (∀ m, ex.download = some m → manifestEq m manifest = false) →
        processManifest false assets manifest mfn mp =
          (⟨1, 0, [.deleteA ex.id mfn, .uploadA mp mfn]⟩,
           some ex.download)) := by
  refine ⟨fun hfind => ?_, fun ex m hfind hdl heq => ?_,
    fun ex hfind hne => ?_⟩
  · simp [processManifest, hfind]
  · simp [processManifest, hfind, hdl, heq]
  · cases hdl : ex.download with
    | none => simp [processManifest, hfind, hdl]
    | some m => simp [processManifest, hfind, hdl, hne m hdl]

/-- Witness for C2: concrete skip decision (remote manifest downloads to a
document deep-equal to the local manifest). -/
theorem c2_witness :
    (findAsset exAssets "t-manifest.json" =
        some ⟨1, "t-manifest.json", some exMan⟩ ∧
      manifestEq exMan exMan = true) ∧
      processManifest false exAssets exMan "t-manifest.json"
        "t-manifest.json" = (⟨0, 1, []⟩, some (some exMan)) :=
  ⟨⟨by decide, by decide⟩,
    (c2_manifest_identity exAssets exMan "t-manifest.json"
        "t-manifest.json").2.1 ⟨1, "t-manifest.json", some exMan⟩ exMan
      (by decide) rfl (by decide)⟩

/-- With `force` set, the manifest check bypasses download and comparison
entirely and plans a plain upload, leaving `remote_manifest` unassigned. -/
theorem processManifest_force (assets : List Asset) (manifest : Manifest)
    (mfn mp : String) :
    processManifest true assets manifest mfn mp =
      (⟨1, 0, [.uploadA mp mfn]⟩, none) := by
  cases hfa : findAsset assets mfn <;> simp [processManifest, hfa]

/-- With `force` set, the per-file loop uploads every entry whose local
archive exists, consults no hash, and issues no delete. -/
theorem processFiles_force (assets : List Asset) (rm : RMState)
    (le : String → Bool) (fs : List (String × FileEntry)) :
    processFiles true assets rm le fs =
      some ⟨(fs.filter (fun p => le p.2.uri)).length, 0,
        (fs.filter (fun p => le p.2.uri)).map
          (fun p => .uploadA p.2.uri p.2.uri)⟩ := by
  induction fs with
  | nil => rfl
  | cons e rest ih =>
    by_cases hle : le e.2.uri <;>
      cases hfa : findAsset assets e.2.uri <;>
        simp [processFiles, processFile, hle, hfa, ih, List.filter_cons] <;>
          omega

/-- Counterexample to C4 as stated: with `force` true and both published
names already present remotely, the run issues two uploads and not a single
delete — the existing assets are never deleted before the new copies are
uploaded. -/
theorem c4_counterexample :
    compare_and_upload exMan "t-manifest.json" "t-manifest.json"
      (fun _ => true) exAssets true =
      some ⟨2, 0, [.uploadA "t-manifest.json" "t-manifest.json",
                   .uploadA "t-app.tar.gz" "t-app.tar.gz"]⟩
    ∧ (findAsset exAssets "t-app.tar.gz").isSome = true
    ∧ (findAsset exAssets "t-manifest.json").isSome = true
    ∧ ([Action.uploadA "t-manifest.json" "t-manifest.json",
        Action.uploadA "t-app.tar.gz" "t-app.tar.gz"].all
          (fun a => !a.isDelete)) = true := by
  refine ⟨by decide, by decide, by decide, by decide⟩

/-- C4 (amended): with `force` true, every in-scope object — the manifest
document and every file entry whose local archive exists — is uploaded
unconditionally, with no hash or equality comparison consulted and nothing
skipped; the trace consists solely of uploads, so no existing remote asset
is deleted first. -/
theorem c4_force_override (manifest : Manifest) (mfn mp : String)
    (le : String → Bool) (assets : List Asset) :
    compare_and_upload manifest mfn mp le assets true =
      some ⟨1 + (manifest.files.filter (fun p => le p.2.uri)).length, 0,
        .uploadA mp mfn ::
          (manifest.files.filter (fun p => le p.2.uri)).map
            (fun p => .uploadA p.2.uri p.2.uri)⟩ := by
  simp [compare_and_upload, processManifest_force, processFiles_force]

/-- C6: dry-run purity — an uploader in dry-run mode computes exactly the
plan (decisions, counters and intended mutation trace) of a live run over
the same inputs, and issues zero network-mutating requests. -/
theorem c6_dry_run_purity (manifest : Manifest) (mfn mp : String)
    (le : String → Bool) (assets : List Asset) (force : Bool) :
    (run_compare_and_upload true manifest mfn mp le assets force).map
        Prod.fst =
      (run_compare_and_upload false manifest mfn mp le assets force).map
        Prod.fst
    ∧ (run_compare_and_upload true manifest mfn mp le assets force).map
        Prod.snd =
      (compare_and_upload manifest mfn mp le assets force).map
        (fun _ => ([] : List NetCall)) := by
  constructor
  · cases h : compare_and_upload manifest mfn mp le assets force <;>
      simp [run_compare_and_upload, h]
  · cases h : compare_and_upload manifest mfn mp le assets force <;>
      simp [run_compare_and_upload, h, performActions_dry]

/-- Zeta-reduced reading of `compare_and_upload`: manifest step first, then
the per-file loop, counters summed and traces concatenated in that order. -/
theorem compare_and_upload_eq (manifest : Manifest) (mfn mp : String)
    (le : String → Bool) (assets : List Asset) (force : Bool) :
    compare_and_upload manifest mfn mp le assets force =
      match processFiles force assets
          (processManifest force assets manifest mfn mp).2 le
          manifest.files with
      | none => none
      | some fr =>
        some ⟨(processManifest force assets manifest mfn mp).1.uploaded +
                fr.uploaded,
              (processManifest force assets manifest mfn mp).1.skipped +
                fr.skipped,
              (processManifest force assets manifest mfn mp).1.actions ++
                fr.actions⟩ := rfl

/-- The manifest check contributes exactly one unit to exactly one of the
two counters, whichever branch runs. -/
theorem processManifest_counts (force : Bool) (assets : List Asset)
    (manifest : Manifest) (mfn mp : String) :
    (processManifest force assets manifest mfn mp).1.uploaded +
      (processManifest force assets manifest mfn mp).1.skipped = 1 := by
  cases hfa : findAsset assets mfn with
  | none => cases force <;> simp [processManifest, hfa]
  | some ex =>
    cases force with
    | true => simp [processManifest, hfa]
    | false =>
      cases hdl : ex.download with
      | none => simp [processManifest, hfa, hdl]
      | some m =>
        by_cases he : manifestEq m manifest <;>
          simp [processManifest, hfa, hdl, he]

/-- One completed per-file iteration contributes one counter unit when the
local archive exists and none when it is missing. -/
theorem processFile_counts (force : Bool) (assets : List Asset) (rm : RMState)
    (le : String → Bool) (p : String × FileEntry) (r : StepResult)
    (h : processFile force assets rm le p = some r) :
    r.uploaded + r.skipped = if le p.2.uri then 1 else 0 := by
  by_cases hle : le p.2.uri
  · cases hfa : findAsset assets p.2.uri with
    | none =>
      cases force <;> simp [processFile, hle, hfa] at h <;> simp [← h, hle]
    | some ex =>
      cases force with
      | true => simp [processFile, hle, hfa] at h; simp [← h, hle]
      | false =>
        match rm with
        | none => simp [processFile, hle, hfa] at h
        | some none => simp [processFile, hle, hfa] at h; simp [← h, hle]
        | some (some m) =>
          cases hq : m.files.find? (fun q => q.2.uri == p.2.uri) with
          | none => simp [processFile, hle, hfa, hq] at h; simp [← h, hle]
          | some q =>
            by_cases hb : (q.2.sha256 != "") && (q.2.sha256 == p.2.sha256) <;>
              simp [processFile, hle, hfa, hq, hb] at h <;> simp [← h, hle]
  · simp [processFile, hle] at h; simp [← h, hle]

/-- A completed per-file loop contributes one counter unit per entry whose
local archive exists. -/
theorem processFiles_counts (force : Bool) (assets : List Asset)
    (rm : RMState) (le : String → Bool) (fs : List (String × FileEntry))
    (fr : StepResult) (h : processFiles force assets rm le fs = some fr) :
    fr.uploaded + fr.skipped =
      (fs.filter (fun p => le p.2.uri)).length := by
  induction fs generalizing fr with
  | nil =>
    simp [processFiles] at h
    simp [← h]
  | cons e rest ih =>
    unfold processFiles at h
    cases he : processFile force assets rm le e with
    | none => rw [he] at h; simp at h
    | some r =>
      rw [he] at h
      cases hr : processFiles force assets rm le rest with
      | none => rw [hr] at h; simp at h
      | some r' =>
        rw [hr] at h
        simp only [Option.some.injEq] at h
        have h1 := processFile_counts force assets rm le e r he
        have h2 := ih r' hr
        rw [List.filter_cons]
        by_cases hle : le e.2.uri <;>
          simp [hle] at h1 ⊢ <;> simp [← h] <;> omega

/-- C10: counter accounting — every completed `compare_and_upload` run
reports `uploaded + skipped` equal to one (for the manifest document) plus
the number of files entries whose referenced local archive exists; entries
with a missing local archive are counted in neither counter. -/
theorem c10_counter_accounting (manifest : Manifest) (mfn mp : String)
    (le : String → Bool) (assets : List Asset) (force : Bool)
    (r : StepResult)
    (h : compare_and_upload manifest mfn mp le assets force = some r) :
    r.uploaded + r.skipped =
      1 + (manifest.files.filter (fun p => le p.2.uri)).length := by
  rw [compare_and_upload_eq] at h
  cases hf : processFiles force assets
      (processManifest force assets manifest mfn mp).2 le manifest.files with
  | none => rw [hf] at h; simp at h
  | some fr =>
    rw [hf] at h
    simp only [Option.some.injEq] at h
    have h1 := processManifest_counts force assets manifest mfn mp
    have h2 := processFiles_counts force assets
      (processManifest force assets manifest mfn mp).2 le manifest.files fr hf
    simp [← h]
    omega

/-- Witness for C10: the all-skip run reports 0 + 2 = 1 + 1. -/
theorem c10_witness :
    compare_and_upload exMan "t-manifest.json" "t-manifest.json"
      (fun _ => true) exAssets false = some ⟨0, 2, []⟩
    ∧ (StepResult.mk 0 2 []).uploaded + (StepResult.mk 0 2 []).skipped =
        1 + (exMan.files.filter
          (fun p => (fun _ : String => true) p.2.uri)).length :=
  ⟨by decide,
    c10_counter_accounting exMan "t-manifest.json" "t-manifest.json"
      (fun _ => true) exAssets false ⟨0, 2, []⟩ (by decide)⟩

/-- C8: a files entry whose referenced local archive is missing is warned
about and skipped entirely: its iteration performs no upload and no delete,
touches neither counter, and removing it from the files map leaves the whole
per-file loop's outcome unchanged (the target's reconciliation is not
aborted). -/
theorem c8_missing_local (force : Bool) (assets : List Asset) (rm : RMState)
    (le : String → Bool) (p : String × FileEntry)
    (pre post : List (String × FileEntry))
    (hmiss : le p.2.uri = false) :
    processFile force assets rm le p = some ⟨0, 0, []⟩
    ∧ processFiles force assets rm le (pre ++ p :: post) =
        processFiles force assets rm le (pre ++ post) := by
  have hstep : processFile force assets rm le p = some ⟨0, 0, []⟩ := by
    simp [processFile, hmiss]
  refine ⟨hstep, ?_⟩
  induction pre with
  | nil =>
    simp only [List.nil_append, processFiles]
    rw [hstep]
    cases hr : processFiles force assets rm le post with
    | none => simp
    | some r' => simp
  | cons e rest ih =>
    simp only [List.cons_append, processFiles, List.append_eq]
    rw [ih]

/-- Witness for C8: a concrete missing-local entry contributes nothing. -/
theorem c8_witness :
    ((fun _ : String => false) exEntry.uri = false) ∧
      (processFile false exAssets (some (some exMan)) (fun _ => false)
          ("app", exEntry) = some ⟨0, 0, []⟩
        ∧ processFiles false exAssets (some (some exMan)) (fun _ => false)
            ([] ++ ("app", exEntry) :: []) =
          processFiles false exAssets (some (some exMan)) (fun _ => false)
            ([] ++ [])) :=
  ⟨rfl, c8_missing_local false exAssets (some (some exMan)) (fun _ => false)
    ("app", exEntry) [] [] rfl⟩

/-- Every action the manifest check issues addresses the manifest file. -/
theorem processManifest_actions_names (force : Bool) (assets : List Asset)
    (manifest : Manifest) (mfn mp : String) :
    ∀ a ∈ (processManifest force assets manifest mfn mp).1.actions,
      a.name = mfn := by
  cases hfa : findAsset assets mfn with
  | none =>
    cases force <;>
      simp [processManifest, hfa, Action.name, List.forall_mem_cons]
  | some ex =>
    cases force with
    | true => simp [processManifest, hfa, Action.name, List.forall_mem_cons]
    | false =>
      cases hdl : ex.download with
      | none =>
        simp [processManifest, hfa, hdl, Action.name, List.forall_mem_cons]
      | some m =>
        by_cases he : manifestEq m manifest <;>
          simp [processManifest, hfa, hdl, he, Action.name,
            List.forall_mem_cons]

/-- Every action one per-file iteration issues addresses that entry's
published archive name. -/
theorem processFile_actions_names (force : Bool) (assets : List Asset)
    (rm : RMState) (le : String → Bool) (p : String × FileEntry)
    (r : StepResult) (h : processFile force assets rm le p = some r) :
    ∀ a ∈ r.actions, a.name = p.2.uri := by
  by_cases hle : le p.2.uri
  · cases hfa : findAsset assets p.2.uri with
    | none =>
      cases force <;> simp [processFile, hle, hfa] at h <;>
        simp [← h, Action.name, List.forall_mem_cons]
    | some ex =>
      cases force with
      | true =>
        simp [processFile, hle, hfa] at h
        simp [← h, Action.name, List.forall_mem_cons]
      | false =>
        match rm with
        | none => simp [processFile, hle, hfa] at h
        | some none =>
          simp [processFile, hle, hfa] at h
          simp [← h, Action.name, List.forall_mem_cons]
        | some (some m) =>
          cases hq : m.files.find? (fun q => q.2.uri == p.2.uri) with
          | none =>
            simp [processFile, hle, hfa, hq] at h
            simp [← h, Action.name, List.forall_mem_cons]
          | some q =>
            by_cases hb :
                (q.2.sha256 != "") && (q.2.sha256 == p.2.sha256) <;>
              simp [processFile, hle, hfa, hq, hb] at h <;>
                simp [← h, Action.name, List.forall_mem_cons]
  · simp [processFile, hle] at h
    simp [← h]

/-- Every action the per-file loop issues addresses some entry's published
archive name. -/
theorem processFiles_actions_names (force : Bool) (assets : List Asset)
    (rm : RMState) (le : String → Bool) (fs : List (String × FileEntry))
    (fr : StepResult) (h : processFiles force assets rm le fs = some fr) :
    ∀ a ∈ fr.actions, ∃ p ∈ fs, a.name = p.2.uri := by
  induction fs generalizing fr with
  | nil =>
    simp [processFiles] at h
    simp [← h]
  | cons e rest ih =>
    unfold processFiles at h
    cases he : processFile force assets rm le e with
    | none => rw [he] at h; simp at h
    | some r =>
      rw [he] at h
      cases hr : processFiles force assets rm le rest with
      | none => rw [hr] at h; simp at h
      | some r' =>
        rw [hr] at h
        simp only [Option.some.injEq] at h
        intro a ha
        rw [← h] at ha
        simp only [List.mem_append] at ha
        rcases ha with ha | ha
        · exact ⟨e, List.mem_cons_self e rest,
            processFile_actions_names force assets rm le e r he a ha⟩
        · obtain ⟨p, hp, hn⟩ := ih r' hr a ha
          exact ⟨p, List.mem_cons_of_mem e hp, hn⟩

/-- Counterexample to C5 as stated: on a fresh remote release, the run
uploads the manifest document first and the per-file archive after it, so
the per-file upload is not applied before the manifest upload. -/
theorem c5_counterexample :
    compare_and_upload exMan "t-manifest.json" "t-manifest.json"
      (fun _ => true) [] false =
      some ⟨2, 0, [.uploadA "t-manifest.json" "t-manifest.json",
                   .uploadA "t-app.tar.gz" "t-app.tar.gz"]⟩
    ∧ noPerFileAfterManifestUpload "t-manifest.json"
        [.uploadA "t-manifest.json" "t-manifest.json",
         .uploadA "t-app.tar.gz" "t-app.tar.gz"] = false :=
  ⟨by decide, by decide⟩

/-- C5 (amended): execution order within one target's reconciliation is
manifest-first — the manifest document's delete/upload actions are applied
before every per-file upload and delete, so the trace of any completed run
splits into manifest-addressed actions followed by per-file actions. -/
theorem c5_manifest_first (manifest : Manifest) (mfn mp : String)
    (le : String → Bool) (assets : List Asset) (force : Bool)
    (r : StepResult)
    (h : compare_and_upload manifest mfn mp le assets force = some r)
    (huri : ∀ p ∈ manifest.files, p.2.uri ≠ mfn) :
    ∃ macts facts, r.actions = macts ++ facts
      ∧ (∀ a ∈ macts, a.name = mfn)
      ∧ (∀ a ∈ facts, a.name ≠ mfn) := by
  rw [compare_and_upload_eq] at h
  cases hf : processFiles force assets
      (processManifest force assets manifest mfn mp).2 le manifest.files with
  | none => rw [hf] at h; simp at h
  | some fr =>
    rw [hf] at h
    simp only [Option.some.injEq] at h
    refine ⟨(processManifest force assets manifest mfn mp).1.actions,
      fr.actions, ?_, processManifest_actions_names force assets manifest
        mfn mp, ?_⟩
    · rw [← h]
    · intro a ha
      obtain ⟨p, hp, hn⟩ := processFiles_actions_names force assets
        (processManifest force assets manifest mfn mp).2 le manifest.files
        fr hf a ha
      rw [hn]
      exact huri p hp

/-- Witness for C5 (amended): a concrete completed run splits into the
manifest upload followed by per-file actions. -/
theorem c5_witness :
    (compare_and_upload exMan "t-manifest.json" "t-manifest.json"
        (fun _ => true) [] false =
        some ⟨2, 0, [.uploadA "t-manifest.json" "t-manifest.json",
                     .uploadA "t-app.tar.gz" "t-app.tar.gz"]⟩
      ∧ (∀ p ∈ exMan.files, p.2.uri ≠ "t-manifest.json")) ∧
      ∃ macts facts,
        (StepResult.mk 2 0
          [Action.uploadA "t-manifest.json" "t-manifest.json",
           Action.uploadA "t-app.tar.gz" "t-app.tar.gz"]).actions =
          macts ++ facts
        ∧ (∀ a ∈ macts, a.name = "t-manifest.json")
        ∧ (∀ a ∈ facts, a.name ≠ "t-manifest.json") :=
  ⟨⟨by decide, by decide⟩,
    c5_manifest_first exMan "t-manifest.json" "t-manifest.json"
      (fun _ => true) [] false
      ⟨2, 0, [.uploadA "t-manifest.json" "t-manifest.json",
              .uploadA "t-app.tar.gz" "t-app.tar.gz"]⟩
      (by decide) (by decide)⟩

/-- C7: archive cache correctness — for one collected artifact, compression
is skipped exactly when the archive file already exists on disk AND the
digest recorded for the artifact's basename in the previously persisted
manifest equals the freshly computed digest; with no archive on disk the
artifact is (re)compressed even when the recorded digest matches, with no
stale removal; with an archive present but a differing (or absent) recorded
digest the stale archive is removed and the artifact recompressed.  In the
miss cases the resulting archive is the single-entry tar+gzip at maximum
compression (level 9) storing the content under the artifact's basename,
and in every case the manifest entry is set to the fresh digest and the
archive's published name. -/
theorem c7_archive_cache (hash : String → String)
    (existingFiles : List (String × FileEntry)) (target : String)
    (st : CollectState) (f : Artifact) :
    ((dlookup st.disk (tgzName target f)).isSome = true ∧
        (dlookup existingFiles f.basename).map FileEntry.sha256 =
          some (hash f.content) →
      addOne hash existingFiles target st f =
        ⟨st.disk,
         dinsert st.files f.basename ⟨hash f.content, tgzName target f⟩,
         st.events ++ [.skipCompression (tgzName target f)]⟩)
    ∧ (dlookup st.disk (tgzName target f) = none →
      addOne hash existingFiles target st f =
        ⟨dinsert st.disk (tgzName target f) ⟨f.basename, f.content, 9⟩,
         dinsert st.files f.basename ⟨hash f.content, tgzName target f⟩,
         st.events ++ [.compressed (tgzName target f)]⟩)
    ∧ ((dlookup st.disk (tgzName target f)).isSome = true ∧
        (dlookup existingFiles f.basename).map FileEntry.sha256 ≠
          some (hash f.content) →
      addOne hash existingFiles target st f =
        ⟨dinsert st.disk (tgzName target f) ⟨f.basename, f.content, 9⟩,
         dinsert st.files f.basename ⟨hash f.content, tgzName target f⟩,
         st.events ++ [.removeStale (tgzName target f),
                       .compressed (tgzName target f)]⟩) := by
  refine ⟨fun ⟨h1, h2⟩ => ?_, fun h1 => ?_, fun ⟨h1, h2⟩ => ?_⟩
  · simp [addOne, compress, h1, h2]
  · simp [addOne, compress, h1]
  · have h2' : ¬ some (hash f.content) =
        (dlookup existingFiles f.basename).map FileEntry.sha256 :=
      fun he => h2 he.symm
    simp [addOne, compress, h1, h2']

/-- Witness for C7: with the archive missing from disk but the recorded
digest matching, the artifact is still recompressed (existence is checked,
not just the digest record). -/
theorem c7_witness :
    dlookup ([] : List (String × Archive)) (tgzName "t" ⟨"app", "x"⟩) =
        none ∧
      addOne (fun s => s) [("app", ⟨"x", "t-app.tar.gz"⟩)] "t"
        ⟨[], [], []⟩ ⟨"app", "x"⟩ =
        ⟨dinsert [] (tgzName "t" ⟨"app", "x"⟩) ⟨"app", "x", 9⟩,
         dinsert [] "app" ⟨"x", tgzName "t" ⟨"app", "x"⟩⟩,
         [] ++ [.compressed (tgzName "t" ⟨"app", "x"⟩)]⟩ :=
  ⟨rfl,
    (c7_archive_cache (fun s => s) [("app", ⟨"x", "t-app.tar.gz"⟩)] "t"
      ⟨[], [], []⟩ ⟨"app", "x"⟩).2.1 rfl⟩

/-- First direction of Python dict equality: every entry of the left dict is
found, with the same value, in the right dict. -/
theorem dictEqB_left {α : Type} [DecidableEq α] (a b : List (String × α))
    (h : dictEqB a b = true) (p : String × α) (hp : p ∈ a) :
    dlookup b p.1 = some p.2 := by
  unfold dictEqB at h
  rw [Bool.and_eq_true] at h
  exact of_decide_eq_true (List.all_eq_true.mp h.1 p hp)

/-- Second direction of Python dict equality: every entry of the right dict
is found, with the same value, in the left dict. -/
theorem dictEqB_right {α : Type} [DecidableEq α] (a b : List (String × α))
    (h : dictEqB a b = true) (p : String × α) (hp : p ∈ b) :
    dlookup a p.1 = some p.2 := by
  unfold dictEqB at h
  rw [Bool.and_eq_true] at h
  exact of_decide_eq_true (List.all_eq_true.mp h.2 p hp)

/-- A successful dict lookup is realized by a member with that key and
value. -/
theorem dlookup_some {α : Type} (l : List (String × α)) (k : String) (v : α)
    (h : dlookup l k = some v) : ∃ q ∈ l, q.1 = k ∧ q.2 = v := by
  unfold dlookup at h
  cases hf : l.find? (fun p => p.1 == k) with
  | none => rw [hf] at h; simp at h
  | some q =>
    rw [hf] at h
    simp only [Option.map_some', Option.some.injEq] at h
    exact ⟨q, List.mem_of_find?_eq_some hf,
      by simpa using List.find?_some hf, h⟩

/-- If some member bears the wanted uri, the first-match scan succeeds and
returns a member bearing that uri. -/
theorem find?_uri_exists (files : List (String × FileEntry)) (u : String)
    (q : String × FileEntry) (hq : q ∈ files) (hu : q.2.uri = u) :
    ∃ w, files.find? (fun r => r.2.uri == u) = some w
      ∧ w.2.uri = u ∧ w ∈ files := by
  cases hf : files.find? (fun r => r.2.uri == u) with
  | none =>
    exfalso
    have := List.find?_eq_none.mp hf q hq
    simp [hu] at this
  | some w =>
    exact ⟨w, rfl, by simpa using List.find?_some hf,
      List.mem_of_find?_eq_some hf⟩

/-- When the remote manifest is Python-equal to the local one and uris
determine hashes among the local entries, the first uri match for any local
entry carries that entry's hash. -/
theorem remote_match_of_manifestEq (remote local_m : Manifest)
    (heq : manifestEq remote local_m = true)
    (huri : ∀ p ∈ local_m.files, ∀ q ∈ local_m.files,
      p.2.uri = q.2.uri → p.2.sha256 = q.2.sha256)
    (p : String × FileEntry) (hp : p ∈ local_m.files) :
    ∃ w, remote.files.find? (fun r => r.2.uri == p.2.uri) = some w
      ∧ w.2.sha256 = p.2.sha256 := by
  have hfe : dictEqB remote.files local_m.files = true := by
    unfold manifestEq at heq
    rw [Bool.and_eq_true] at heq
    exact heq.1
  have h1 : dlookup remote.files p.1 = some p.2 :=
    dictEqB_right remote.files local_m.files hfe p hp
  obtain ⟨q, hqmem, hqk, hqv⟩ := dlookup_some remote.files p.1 p.2 h1
  have hquri : q.2.uri = p.2.uri := by rw [hqv]
  obtain ⟨w, hw, hwuri, hwmem⟩ :=
    find?_uri_exists remote.files p.2.uri q hqmem hquri
  have h2 : dlookup local_m.files w.1 = some w.2 :=
    dictEqB_left remote.files local_m.files hfe w hwmem
  obtain ⟨w', hw'mem, hw'k, hw'v⟩ := dlookup_some local_m.files w.1 w.2 h2
  refine ⟨w, hw, ?_⟩
  have huw : w'.2.uri = p.2.uri := by rw [hw'v, hwuri]
  have hsha := huri w' hw'mem p hp huw
  rw [← hw'v]
  exact hsha

/-- When every entry's asset already exists remotely and the downloaded
remote manifest carries every entry's hash at its first uri match, the whole
per-file loop plans skip for every entry. -/
theorem processFiles_all_skip (assets : List Asset) (remote : Manifest)
    (le : String → Bool) (fs : List (String × FileEntry))
    (h : ∀ p ∈ fs, le p.2.uri = true
      ∧ (findAsset assets p.2.uri).isSome = true
      ∧ p.2.sha256 ≠ ""
      ∧ ∃ w, remote.files.find? (fun r => r.2.uri == p.2.uri) = some w
          ∧ w.2.sha256 = p.2.sha256) :
    processFiles false assets (some (some remote)) le fs =
      some ⟨0, fs.length, []⟩ := by
  induction fs with
  | nil => rfl
  | cons e rest ih =>
    obtain ⟨hle, hsome, hne, w, hw, hwsha⟩ := h e (List.mem_cons_self e rest)
    obtain ⟨ex, hex⟩ := Option.isSome_iff_exists.mp hsome
    have hstep := processFile_eval_skip assets remote le e ex w hle hex hw
      hwsha hne
    simp only [processFiles]
    rw [hstep, ih (fun p hp => h p (List.mem_cons_of_mem e hp))]
    simp [Nat.add_comm]

/-- C3: idempotence — if a first non-dry, non-force run completed and the
remote state afterward reflects exactly the uploads it performed (the
manifest asset is present and downloads to a document Python-equal to the
local manifest, and every file entry's published name is present among the
assets), then a second run over the same inputs plans skip for the manifest
and for every file entry, performs zero upload and zero delete actions, and
reports uploaded = 0.  Well-formedness of the build-produced manifest is
assumed: hashes are nonempty hex digests, a published name determines its
hash, and every referenced local archive exists. -/
theorem c3_idempotence (manifest : Manifest) (mfn mp : String)
    (le : String → Bool) (assets assets' : List Asset) (ex : Asset)
    (remote : Manifest)
    (hrun1 : compare_and_upload manifest mfn mp le assets false ≠ none)
    (hma : findAsset assets' mfn = some ex)
    (hdl : ex.download = some remote)
    (heq : manifestEq remote manifest = true)
    (huri : ∀ p ∈ manifest.files, ∀ q ∈ manifest.files,
      p.2.uri = q.2.uri → p.2.sha256 = q.2.sha256)
    (hsha : ∀ p ∈ manifest.files, p.2.sha256 ≠ "")
    (hloc : ∀ p ∈ manifest.files, le p.2.uri = true)
    (hass : ∀ p ∈ manifest.files, (findAsset assets' p.2.uri).isSome = true) :
    compare_and_upload manifest mfn mp le assets' false =
      some ⟨0, 1 + manifest.files.length, []⟩ := by
  have hm : processManifest false assets' manifest mfn mp =
      (⟨0, 1, []⟩, some (some remote)) := by
    simp [processManifest, hma, hdl, heq]
  have hall := processFiles_all_skip assets' remote le manifest.files
    (fun p hp => ⟨hloc p hp, hass p hp, hsha p hp,
      remote_match_of_manifestEq remote manifest heq huri p hp⟩)
  rw [compare_and_upload_eq, hm]
  simp only []
  rw [hall]
  simp

/-- Witness for C3: the concrete second run over a reflecting remote state
is an all-skip run with zero mutations. -/
theorem c3_witness :
    (compare_and_upload exMan "t-manifest.json" "t-manifest.json"
        (fun _ => true) exAssets false ≠ none
      ∧ findAsset exAssets "t-manifest.json" =
          some ⟨1, "t-manifest.json", some exMan⟩
      ∧ (Asset.mk 1 "t-manifest.json" (some exMan)).download = some exMan
      ∧ manifestEq exMan exMan = true
      ∧ (∀ p ∈ exMan.files, ∀ q ∈ exMan.files,
          p.2.uri = q.2.uri → p.2.sha256 = q.2.sha256)
      ∧ (∀ p ∈ exMan.files, p.2.sha256 ≠ "")
      ∧ (∀ p ∈ exMan.files, (fun _ : String => true) p.2.uri = true)
      ∧ (∀ p ∈ exMan.files,
          (findAsset exAssets p.2.uri).isSome = true)) ∧
      compare_and_upload exMan "t-manifest.json" "t-manifest.json"
        (fun _ => true) exAssets false =
        some ⟨0, 1 + exMan.files.length, []⟩ :=
  ⟨⟨by decide, by decide, rfl, by decide, by decide, by decide, by decide,
    by decide⟩,
    c3_idempotence exMan "t-manifest.json" "t-manifest.json"
      (fun _ => true) exAssets exAssets ⟨1, "t-manifest.json", some exMan⟩
      exMan (by decide) (by decide) rfl (by decide) (by decide) (by decide)
      (by decide) (by decide)⟩

/-- Python dict assignment with a fresh key appends the new entry. -/
theorem dinsert_append {α : Type} (l : List (String × α)) (k : String)
    (v : α) (h : ¬ k ∈ l.map Prod.fst) : dinsert l k v = l ++ [(k, v)] := by
  induction l with
  | nil => rfl
  | cons e rest ih =>
    simp only [List.map_cons, List.mem_cons, not_or] at h
    simp only [dinsert, List.cons_append]
    rw [if_neg (by simp; exact fun he => h.1 he.symm), ih h.2]

/-- The collection step always assigns the manifest entry for the artifact's
basename, whichever cache branch ran. -/
theorem addOne_files (hash : String → String)
    (existingFiles : List (String × FileEntry)) (target : String)
    (st : CollectState) (f : Artifact) :
    (addOne hash existingFiles target st f).files =
      dinsert st.files f.basename
        ⟨hash f.content, tgzName target f⟩ := by
  by_cases hc : ((dlookup st.disk (tgzName target f)).isSome &&
      decide (some (hash f.content) =
        (dlookup existingFiles f.basename).map FileEntry.sha256)) = true
  · simp [addOne, hc]
  · simp [addOne, hc]

/-- Folding the collection step over artifacts with mutually fresh basenames
appends one manifest entry per artifact, in order. -/
theorem add_to_manifest_files (hash : String → String)
    (existingFiles : List (String × FileEntry)) (target : String)
    (st : CollectState) (fs : List Artifact)
    (h : ((st.files.map Prod.fst) ++ fs.map Artifact.basename).Nodup) :
    (add_to_manifest hash existingFiles target st fs).files =
      st.files ++ fs.map (fun f =>
        (f.basename, FileEntry.mk (hash f.content) (tgzName target f))) := by
  induction fs generalizing st with
  | nil => simp [add_to_manifest]
  | cons f rest ih =>
    have hfresh : ¬ f.basename ∈ st.files.map Prod.fst := by
      intro hmem
      rw [List.nodup_append] at h
      exact h.2.2 hmem (by simp)
    have h1 : (addOne hash existingFiles target st f).files =
        st.files ++ [(f.basename,
          FileEntry.mk (hash f.content) (tgzName target f))] := by
      rw [addOne_files, dinsert_append st.files f.basename _ hfresh]
    have h2 : (((addOne hash existingFiles target st f).files.map
        Prod.fst) ++ rest.map Artifact.basename).Nodup := by
      rw [h1]
      simp only [List.map_append, List.map_cons, List.map_nil]
      rw [List.append_assoc]
      simpa using h
    have := ih (addOne hash existingFiles target st f) h2
    simp only [add_to_manifest, List.foldl_cons] at *
    rw [this, h1]
    simp

/-- Counterexample to C9 as stated: with the basename `app` among both the
build outputs and the additional any-variant files, the pass produces two
distinct archives on disk but only one `files` entry (the second assignment
overwrites the first), so the map and the produced archives are not in
bijection. -/
theorem c9_counterexample :
    (collect_and_move_artifacts (fun s => s) [] [] "t" "a"
        [⟨"app", "x"⟩] [⟨"app", "y"⟩]).files =
      [("app", ⟨"y", "a-app.tar.gz"⟩)]
    ∧ dlookup (collect_and_move_artifacts (fun s => s) [] [] "t" "a"
        [⟨"app", "x"⟩] [⟨"app", "y"⟩]).disk "t-app.tar.gz" =
      some ⟨"app", "x", 9⟩
    ∧ dlookup (collect_and_move_artifacts (fun s => s) [] [] "t" "a"
        [⟨"app", "x"⟩] [⟨"app", "y"⟩]).disk "a-app.tar.gz" =
      some ⟨"app", "y", 9⟩
    ∧ (collect_and_move_artifacts (fun s => s) [] [] "t" "a"
        [⟨"app", "x"⟩] [⟨"app", "y"⟩]).files.length = 1
    ∧ (producedNames "t" "a" [⟨"app", "x"⟩] [⟨"app", "y"⟩]).length = 2 :=
  ⟨by decide, by decide, by decide, by decide, by decide⟩

/-- C9 (amended): when the basenames of the build outputs and of the
additional any-variant files are pairwise distinct across the whole pass
(and the produced archive names do not collide), the manifest's `files` map
and the produced archives are in bijection: the entries' uris list exactly
the produced archive names, in order and without duplicates, keyed by the
artifacts' basenames.  When a basename repeats across the two groups the
second assignment overwrites the first and the bijection fails. -/
theorem c9_bijection_disjoint (hash : String → String)
    (existingFiles : List (String × FileEntry))
    (initialDisk : List (String × Archive)) (target target_any : String)
    (release_files additional_files : List Artifact)
    (hnodup : ((release_files ++ additional_files).map
        Artifact.basename).Nodup)
    (hnames : (producedNames target target_any release_files
        additional_files).Nodup) :
    ((collect_and_move_artifacts hash existingFiles initialDisk target
        target_any release_files additional_files).files.map
          (fun p => p.2.uri)) =
      producedNames target target_any release_files additional_files
    ∧ ((collect_and_move_artifacts hash existingFiles initialDisk target
        target_any release_files additional_files).files.map Prod.fst) =
        (release_files ++ additional_files).map Artifact.basename
    ∧ ((collect_and_move_artifacts hash existingFiles initialDisk target
        target_any release_files additional_files).files.map
          (fun p => p.2.uri)).Nodup := by
  have hn1 : ((([] : List (String × FileEntry)).map Prod.fst) ++
      release_files.map Artifact.basename).Nodup := by
    simp only [List.map_append] at hnodup
    simpa using (List.nodup_append.mp hnodup).1
  have hfiles : (collect_and_move_artifacts hash existingFiles initialDisk
      target target_any release_files additional_files).files =
      release_files.map (fun f => (f.basename,
        FileEntry.mk (hash f.content) (tgzName target f))) ++
      additional_files.map (fun f => (f.basename,
        FileEntry.mk (hash f.content) (tgzName target_any f))) := by
    unfold collect_and_move_artifacts
    simp only []
    rw [add_to_manifest_files hash existingFiles target_any _
      additional_files ?h2]
    case h2 =>
      rw [add_to_manifest_files hash existingFiles target _ release_files
        hn1]
      simp only [List.nil_append, List.map_map]
      simp only [List.map_append] at hnodup
      simpa [Function.comp] using hnodup
    rw [add_to_manifest_files hash existingFiles target _ release_files hn1]
    simp
  have huris : ((release_files.map (fun f => (f.basename,
      FileEntry.mk (hash f.content) (tgzName target f))) ++
    additional_files.map (fun f => (f.basename,
      FileEntry.mk (hash f.content) (tgzName target_any f)))).map
        (fun p => p.2.uri)) =
      producedNames target target_any release_files additional_files := by
    simp only [List.map_append, List.map_map, producedNames]
    rfl
  refine ⟨?_, ?_, ?_⟩
  · rw [hfiles]
    exact huris
  · rw [hfiles]
    simp only [List.map_append, List.map_map]
    rfl
  · rw [hfiles, huris]
    exact hnames

/-- Witness for C9 (amended): disjoint basenames yield a one-to-one map
between entries and produced archives. -/
theorem c9_witness :
    ((((([⟨"app", "x"⟩] : List Artifact) ++
          ([⟨"lib", "y"⟩] : List Artifact)).map
        Artifact.basename).Nodup)
      ∧ (producedNames "t" "a" [⟨"app", "x"⟩] [⟨"lib", "y"⟩]).Nodup) ∧
      (((collect_and_move_artifacts (fun s => s) [] [] "t" "a"
          [⟨"app", "x"⟩] [⟨"lib", "y"⟩]).files.map (fun p => p.2.uri)) =
        producedNames "t" "a" [⟨"app", "x"⟩] [⟨"lib", "y"⟩]
      ∧ ((collect_and_move_artifacts (fun s => s) [] [] "t" "a"
          [⟨"app", "x"⟩] [⟨"lib", "y"⟩]).files.map Prod.fst) =
          (([⟨"app", "x"⟩] : List Artifact) ++
            ([⟨"lib", "y"⟩] : List Artifact)).map Artifact.basename
      ∧ ((collect_and_move_artifacts (fun s => s) [] [] "t" "a"
          [⟨"app", "x"⟩] [⟨"lib", "y"⟩]).files.map
            (fun p => p.2.uri)).Nodup) :=
  ⟨⟨by decide, by decide⟩,
    c9_bijection_disjoint (fun s => s) [] [] "t" "a" [⟨"app", "x"⟩]
      [⟨"lib", "y"⟩] (by decide) (by decide)⟩

end Sdkit
